import Mathlib

/-!
Verification of the svg-to-dia batch converter (src/svg-to-dia.py) against its
natural-language specification.  The Python program is shallowly embedded:
strings are lists of characters, `xml.etree.ElementTree` element trees are a
nested inductive, the orchestration loop in `main` is a recursive function over
the input list parameterized by an oracle for the two external commands
(`convert` and `identify`), and XML serialization (the stdlib's
`ET.tostring(..., encoding='unicode')`) is a recursive serializer with the same
escaping and self-closing rules as ElementTree.
-/

namespace SvgToDia

/-- Python strings, modelled as lists of characters. -/
abbrev Str := List Char

/-- Coerce a Lean string literal into the character-list representation. -/
def str (s : String) : Str := s.data

/-! ### pathlib: `Path(p).stem`

`main` keys everything by `Path(svg_file).stem`.  `PurePath.name` is the last
path component after dropping empty components and `'.'` components;
`PurePath.stem` strips the final suffix, where a suffix starts at the last dot
provided that dot is neither the first nor the last character of the name. -/

/-- Split a character list at every occurrence of a separator character. -/
def splitOnChar (c : Char) : Str → List Str
  | [] => [[]]
  | d :: s =>
    match splitOnChar c s with
    | [] => [[d]]
    | r :: rs => if d = c then [] :: r :: rs else (d :: r) :: rs

/-- `PurePath.name`: last kept component of the path (POSIX flavour). -/
def pathName (p : Str) : Str :=
  (((splitOnChar '/' p).filter (fun comp => comp ≠ [] ∧ comp ≠ ['.'])).getLast?).getD []

/-- Index of the last `'.'` in a name, if any. -/
def lastDotIdx : Str → Option Nat
  | [] => none
  | c :: s =>
    match lastDotIdx s with
    | some i => some (i + 1)
    | none => if c = '.' then some (0 : Nat) else none

/-- `PurePath.stem`: the name with its final suffix removed.  CPython keeps the
name unchanged when the last dot is the first or the last character. -/
def stemOf (p : Str) : Str :=
  let n := pathName p
  match lastDotIdx n with
  | some i => if 0 < i ∧ i < n.length - 1 then n.take i else n
  | none => n

/-! ### ElementTree element trees -/

/-- An `xml.etree.ElementTree.Element`: tag, attributes (insertion-ordered, as
Python dicts are), optional text, and child elements. -/
inductive Element where
  | mk (tag : Str) (attrib : List (Str × Str)) (txt : Option Str)
      (children : List Element)

def Element.tag : Element → Str
  | .mk t _ _ _ => t

def Element.attrib : Element → List (Str × Str)
  | .mk _ a _ _ => a

def Element.txt : Element → Option Str
  | .mk _ _ t _ => t

def Element.children : Element → List Element
  | .mk _ _ _ c => c

/-- First direct child carrying the given tag (`Element.find` on a tag). -/
def Element.findChild (t : Str) (e : Element) : Option Element :=
  e.children.find? (fun c => decide (c.tag = t))

/-- Attribute lookup in an element's attribute list. -/
def Element.attrGet (k : Str) (e : Element) : Option Str :=
  (e.attrib.find? (fun kv => decide (kv.1 = k))).map (·.2)

/-! ### Decimal rendering: Python `str(x)` on an `int` -/

/-- Decimal digit character. -/
def digitChar (n : Nat) : Char := Char.ofNat (48 + n)

/-- Fueled decimal rendering of a natural number (fuel `n + 1` always
suffices); kept structural so that the kernel can evaluate it. -/
def natStrAux : Nat → Nat → Str
  | 0, _ => []
  | fuel + 1, n =>
    if n < 10 then [digitChar n]
    else natStrAux fuel (n / 10) ++ [digitChar (n % 10)]

/-- Decimal rendering of a natural number. -/
def natStr (n : Nat) : Str := natStrAux (n + 1) n

/-- Python `str` on an integer. -/
def intStr : Int → Str
  | .ofNat n => natStr n
  | .negSucc n => '-' :: natStr (n + 1)

/-! ### `build_shape` (src/svg-to-dia.py lines 42-72) -/

/-- The nine connection points of `build_shape` (source lines 53-63), in
source order.  Python `//` on ints is floor division, i.e. `Int.fdiv`. -/
def shapePoints (width height : Int) : List (Int × Int) :=
  [(0, 0),
   (0, width.fdiv 2),
   (0, width),
   (height.fdiv 2, 0),
   (height, 0),
   (width.fdiv 2, height),
   (width.fdiv 2, height.fdiv 2),
   (width, height.fdiv 2),
   (width, height)]

/-- One `<point x=".." y=".."/>` element (source line 65). -/
def pointEl (xy : Int × Int) : Element :=
  .mk (str "point") [(str "x", intStr xy.1), (str "y", intStr xy.2)] none []

/-- `build_shape(svg_path, width, height)`: the shape descriptor element tree,
exactly as assembled in source lines 42-72. -/
def build_shape (svg_path : Str) (width height : Int) : Element :=
  let stem := stemOf svg_path
  .mk (str "shape")
    [(str "xmlns:svg", str "http://www.w3.org/2000/svg"),
     (str "xmlns:xlink", str "http://www.w3.org/1999/xlink"),
     (str "xmlns", str "http://www.daa.com.au/~james/dia-shape-ns")]
    none
    [.mk (str "name") [] (some stem) [],
     .mk (str "icon") [] (some (stem ++ str ".png")) [],
     .mk (str "connections") [] none ((shapePoints width height).map pointEl),
     .mk (str "aspectratio") [(str "type", str "fixed")] none [],
     .mk (str "svg:svg") [] none
       [.mk (str "svg:image")
         [(str "xlink:href", stem ++ str ".svg"),
          (str "x", str "0"), (str "y", str "0"),
          (str "width", intStr width), (str "height", intStr height)] none []]]

/-- The (x, y) attribute pairs of the points inside the `connections` child. -/
def connPointsOf (e : Element) : Option (List (Option Str × Option Str)) :=
  (e.findChild (str "connections")).map
    (fun c => c.children.map (fun p => (p.attrGet (str "x"), p.attrGet (str "y"))))

/-- Number of entries in the `connections` child. -/
def connCountOf (e : Element) : Option Nat :=
  (e.findChild (str "connections")).map (fun c => c.children.length)

/-! ### The Sheet entity and `build_sheet` (source lines 14-39) -/

/-- The `Sheet` dataclass.  `objects` is a Python dict keyed by stem; dicts
preserve insertion order, so it is modelled as an association list. -/
structure Sheet where
  name : Str
  author : Str
  description : Str
  objects : List (Str × Str)

/-- Python dict assignment `d[k] = v`: updates in place if the key exists,
otherwise appends, preserving insertion order. -/
def dictInsert (d : List (Str × Str)) (k v : Str) : List (Str × Str) :=
  if k ∈ d.map Prod.fst then d.map (fun kv => if kv.1 = k then (k, v) else kv)
  else d ++ [(k, v)]

/-- One `<object name=..><description>..</description></object>` entry
(source lines 36-38). -/
def objectEl (kv : Str × Str) : Element :=
  .mk (str "object") [(str "name", kv.1)] none
    [.mk (str "description") [] (some kv.2) []]

/-- `build_sheet(sheet)` (source lines 22-39).  The three `if sheet.x:` guards
test Python truthiness of the string, i.e. non-emptiness. -/
def build_sheet (sheet : Sheet) : Element :=
  .mk (str "sheet")
    [(str "xmlns", str "http://www.lysator.liu.se/~alla/dia/dia-sheet-ns")]
    none
    ((if sheet.name ≠ [] then [Element.mk (str "name") [] (some sheet.name) []] else [])
      ++ (if sheet.author ≠ [] then [Element.mk (str "created_by") [] (some sheet.author) []] else [])
      ++ (if sheet.description ≠ [] then [Element.mk (str "description") [] (some sheet.description) []] else [])
      ++ [Element.mk (str "contents") [] none (sheet.objects.map objectEl)])

/-- The `(name attribute, description text)` view of the `object` entries
inside the `contents` child of a sheet document. -/
def objectEntriesOf (e : Element) : Option (List (Option Str × Option Str)) :=
  (e.findChild (str "contents")).map
    (fun c => c.children.map
      (fun ob => (ob.attrGet (str "name"),
                  (ob.findChild (str "description")).bind Element.txt)))

/-! ### ElementTree serialization (`ET.tostring(..., encoding='unicode')`)

The Python stdlib's serializer, modelled with ElementTree's exact rules:
`_escape_cdata` escapes `&`, `<`, `>` in text; `_escape_attrib` additionally
escapes `"` and renders carriage return / newline / tab as character
references; an element whose text is falsy (absent or empty) and which has no
children is written self-closed as `<tag attrs />`. -/

/-- `_escape_cdata`, per character. -/
def escChar (c : Char) : Str :=
  if c = '&' then str "&amp;" else if c = '<' then str "&lt;"
  else if c = '>' then str "&gt;" else [c]

/-- Concatenation of a per-character escaping over a string. -/
def escWord (esc : Char → Str) : Str → Str
  | [] => []
  | c :: s => esc c ++ escWord esc s

/-- `_escape_cdata` over a text string. -/
def escapeText (t : Str) : Str := escWord escChar t

/-- `_escape_attrib`, per character. -/
def escAChar (c : Char) : Str :=
  if c = '&' then str "&amp;" else if c = '<' then str "&lt;"
  else if c = '>' then str "&gt;" else if c = '"' then str "&quot;"
  else if c = '\r' then str "&#13;" else if c = '\n' then str "&#10;"
  else if c = '\t' then str "&#09;" else [c]

/-- `_escape_attrib` over an attribute value. -/
def escapeAttr (v : Str) : Str := escWord escAChar v

/-- Serialized attribute list: ` k="escaped v"` for each attribute in order. -/
def serializeAttrs : List (Str × Str) → Str
  | [] => []
  | kv :: rest => (' ' :: kv.1) ++ ('=' :: '"' :: escapeAttr kv.2) ++ ('"' :: serializeAttrs rest)

mutual

/-- `ET.tostring(e, encoding='unicode')` body for one element. -/
def serializeElement : Element → Str
  | .mk tag attrib txt children =>
    ('<' :: tag) ++ serializeAttrs attrib ++
      (if (txt.getD []).isEmpty && children.isEmpty then str " />"
       else ('>' :: escapeText (txt.getD [])) ++ serializeChildren children
            ++ ('<' :: '/' :: tag) ++ ['>'])

/-- Serialization of a list of sibling elements in order. -/
def serializeChildren : List Element → Str
  | [] => []
  | c :: cs => serializeElement c ++ serializeChildren cs

end

/-! ### The orchestration loop of `main` (source lines 75-151)

The two external commands are black boxes (spec §6); an `Oracle` records, per
invocation, the exit status of `convert` on an input path, and the exit status
and reported dimensions of `identify` on a thumbnail path, plus the OS user
name.  File writes are recorded as an ordered event list. -/

/-- Outcomes of the external collaborators and the OS identity lookup. -/
structure Oracle where
  user : Str
  convertRC : Str → Int
  identifyRC : Str → Int
  identifyDims : Str → Int × Int

/-- Files written by the run, in write order. -/
inductive Ev where
  | png (path : Str)
  | svgCopy (path : Str)
  | shapeFile (path : Str) (doc : Element)
  | sheetFile (path : Str) (doc : Element)

/-- `f'shapes/{args.name}'`. -/
def shapesDir (name : Str) : Str := str "shapes/" ++ name

/-- `f'{pshapes}/{stem}.png'`. -/
def pngPath (name s : Str) : Str := shapesDir name ++ ('/' :: s) ++ str ".png"

/-- `pshapes.joinpath(f"{stem}.svg")`. -/
def svgPath (name s : Str) : Str := shapesDir name ++ ('/' :: s) ++ str ".svg"

/-- `pshapes.joinpath(f"{stem}.shape")`. -/
def shapePath (name s : Str) : Str := shapesDir name ++ ('/' :: s) ++ str ".shape"

/-- `psheets.joinpath(f"{args.name}.sheet")`. -/
def sheetPath (name : Str) : Str := str "sheets/" ++ name ++ str ".sheet"

/-- The argv of the `convert` invocation (source lines 117-123). -/
def convertCmd (svgFile png : Str) : List Str :=
  [str "convert", svgFile, str "-resize", str "22x22", png]

/-- The argv of the `identify` invocation (source lines 126-131). -/
def identifyCmd (png : Str) : List Str :=
  [str "identify", str "-format", str "%w %h", png]

/-- A `subprocess.CalledProcessError` escaping from `check_call` /
`check_output`: the failing argv and its non-zero exit status. -/
inductive RunErr where
  | calledProcess (cmd : List Str) (rc : Int)

/-- The per-input loop of `main` (source lines 108-144): skip already-seen
stems, run `convert`, run `identify`, copy the vector source, write the shape
document, append the sheet entry.  A failing external command raises, carrying
the file writes performed so far. -/
def runLoop (o : Oracle) (name : Str) (seen : List Str)
    (objs : List (Str × Str)) (evs : List Ev) :
    List Str → Except (List Ev × RunErr) (List Ev × List (Str × Str))
  | [] => .ok (evs, objs)
  | f :: rest =>
    let s := stemOf f
    if s ∈ seen then runLoop o name seen objs evs rest
    else
      let png := pngPath name s
      let rcC := o.convertRC f
      if rcC ≠ 0 then .error (evs, .calledProcess (convertCmd f png) rcC)
      else
        let evs := evs ++ [.png png]
        let rcI := o.identifyRC png
        if rcI ≠ 0 then .error (evs, .calledProcess (identifyCmd png) rcI)
        else
          let wh := o.identifyDims png
          let evs := evs ++ [.svgCopy (svgPath name s),
                             .shapeFile (shapePath name s) (build_shape f wh.1 wh.2)]
          runLoop o name (s :: seen) (dictInsert objs s (str "description " ++ s))
            evs rest

/-- `main` after argument parsing: run the loop on the input list, then build
and write the sheet document (source lines 146-150).  On success the value
carries the ordered writes and the final `Sheet`. -/
def runMain (o : Oracle) (name : Str) (svgFiles : List Str) :
    Except (List Ev × RunErr) (List Ev × Sheet) :=
  match runLoop o name [] [] [] svgFiles with
  | .error e => .error e
  | .ok (evs, objs) =>
    let sheet : Sheet := ⟨name, o.user, name ++ str " description", objs⟩
    .ok (evs ++ [.sheetFile (sheetPath name) (build_sheet sheet)], sheet)

/-- CPython terminates a script with status 0 when `main` returns, and with
status 1 when an exception (here `CalledProcessError`) goes unhandled. -/
def exitCode (r : Except (List Ev × RunErr) (List Ev × Sheet)) : Int :=
  match r with
  | .ok _ => 0
  | .error _ => 1

/-! ### The verbosity gate (source lines 79-93)

`-v` is `action="count"`: absent gives `None`, else the occurrence count.
`_verbose_print(level, msg)` prints iff `args.verbosity` is truthy and
`level > 1 - args.verbosity`.  Informational messages are emitted at level 1
(source lines 124, 135, 142, 151) and the duplicate-input warning at level 2
(source line 112). -/

/-- Whether a diagnostic passed at the given level is printed for the given
verbosity flag count. -/
def printsAt (verbosity : Option Nat) (level : Int) : Bool :=
  match verbosity with
  | none => false
  | some v => if v = 0 then false else decide (level > 1 - (v : Int))

/-! ### A parser for the emitted shape documents

To state the serialize-then-parse round trip, a parser for the textual shape
documents: it consumes the fixed markup produced by the serializer and
recovers the variable fields, undoing XML character-reference escaping. -/

/-- Strip an expected literal prefix. -/
def dropLit : Str → Str → Option Str
  | [], s => some s
  | _ :: _, [] => none
  | c :: l, d :: s => if c = d then dropLit l s else none

/-- Split at the first occurrence of a delimiter, consuming it. -/
def takeUntil (c : Char) : Str → Option (Str × Str)
  | [] => none
  | d :: s =>
    if d = c then some ([], s)
    else (takeUntil c s).map (fun pr => (d :: pr.1, pr.2))

/-- Decode one XML character reference right after a `&`: the decoded
character and the rest of the input. -/
def unescEnt : Str → Option (Char × Str)
  | 'a' :: 'm' :: 'p' :: ';' :: r => some ('&', r)
  | 'l' :: 't' :: ';' :: r => some ('<', r)
  | 'g' :: 't' :: ';' :: r => some ('>', r)
  | 'q' :: 'u' :: 'o' :: 't' :: ';' :: r => some ('"', r)
  | '#' :: '1' :: '3' :: ';' :: r => some ('\r', r)
  | '#' :: '1' :: '0' :: ';' :: r => some ('\n', r)
  | '#' :: '0' :: '9' :: ';' :: r => some ('\t', r)
  | _ => none

/-- Fueled worker undoing XML character-reference escaping; fails on a raw
`<` or on an unrecognized entity.  Fuel at least the input length always
suffices since every step consumes at least one character. -/
def unescapeAux : Nat → Str → Option Str
  | _, [] => some []
  | 0, _ :: _ => none
  | fuel + 1, c :: s =>
    if c = '<' then none
    else if c = '&' then
      match unescEnt s with
      | some dr => (unescapeAux fuel dr.2).map (fun t => dr.1 :: t)
      | none => none
    else (unescapeAux fuel s).map (fun t => c :: t)

/-- Undo XML character-reference escaping. -/
def unescape (s : Str) : Option Str := unescapeAux s.length s

/-- Element text up to the next `<` (which is consumed), unescaped. -/
def pText (s : Str) : Option (Str × Str) := do
  let pr ← takeUntil '<' s
  let t ← unescape pr.1
  some (t, pr.2)

/-- Attribute value up to the closing `"` (which is consumed), unescaped. -/
def pAttrVal (s : Str) : Option (Str × Str) := do
  let pr ← takeUntil '"' s
  let v ← unescape pr.1
  some (v, pr.2)

/-- One serialized `<point x=".." y=".." />`: the two attribute values. -/
def parsePoint (s : Str) : Option ((Str × Str) × Str) := do
  let s ← dropLit (str "<point x=\"") s
  let x ← pAttrVal s
  let s ← dropLit (str " y=\"") x.2
  let y ← pAttrVal s
  let s ← dropLit (str " />") y.2
  some ((x.1, y.1), s)

/-- A fixed number of consecutive serialized points. -/
def parsePoints : Nat → Str → Option (List (Str × Str) × Str)
  | 0, s => some ([], s)
  | n + 1, s => do
    let p ← parsePoint s
    let ps ← parsePoints n p.2
    some (p.1 :: ps.1, ps.2)

/-- The fields of a shape document, as recovered by parsing its text. -/
structure ShapeRec where
  sname : Str
  sicon : Str
  spoints : List (Str × Str)
  saspect : Str
  shref : Str
  sx : Str
  sy : Str
  swidth : Str
  sheight : Str
  deriving DecidableEq

/-- Parser for the textual form of a shape document as emitted by
`ET.tostring` on the output of `build_shape`. -/
def parseShape (input : Str) : Option ShapeRec :=
  match dropLit (str "<shape xmlns:svg=\"http://www.w3.org/2000/svg\" xmlns:xlink=\"http://www.w3.org/1999/xlink\" xmlns=\"http://www.daa.com.au/~james/dia-shape-ns\"><name>") input with
  | none => none
  | some s =>
  match pText s with
  | none => none
  | some (nm, s) =>
  match dropLit (str "/name><icon>") s with
  | none => none
  | some s =>
  match pText s with
  | none => none
  | some (ic, s) =>
  match dropLit (str "/icon><connections>") s with
  | none => none
  | some s =>
  match parsePoints 9 s with
  | none => none
  | some (pts, s) =>
  match dropLit (str "</connections><aspectratio type=\"") s with
  | none => none
  | some s =>
  match pAttrVal s with
  | none => none
  | some (asp, s) =>
  match dropLit (str " /><svg:svg><svg:image xlink:href=\"") s with
  | none => none
  | some s =>
  match pAttrVal s with
  | none => none
  | some (hr, s) =>
  match dropLit (str " x=\"") s with
  | none => none
  | some s =>
  match pAttrVal s with
  | none => none
  | some (xv, s) =>
  match dropLit (str " y=\"") s with
  | none => none
  | some s =>
  match pAttrVal s with
  | none => none
  | some (yv, s) =>
  match dropLit (str " width=\"") s with
  | none => none
  | some s =>
  match pAttrVal s with
  | none => none
  | some (wv, s) =>
  match dropLit (str " height=\"") s with
  | none => none
  | some s =>
  match pAttrVal s with
  | none => none
  | some (hv, s) =>
  match dropLit (str " /></svg:svg></shape>") s with
  | none => none
  | some s =>
  if s = [] then
    some ⟨nm, ic, pts, asp, hr, xv, yv, wv, hv⟩
  else none

/-! ### First-occurrence deduplication (specification side) -/

/-- Stems kept by first-occurrence deduplication, relative to an
already-seen set. -/
def firstOccurAux (seen : List Str) : List Str → List Str
  | [] => []
  | s :: rest =>
    if s ∈ seen then firstOccurAux seen rest
    else s :: firstOccurAux (s :: seen) rest

/-- The distinct members of a list in first-occurrence order. -/
def firstOccur (l : List Str) : List Str := firstOccurAux [] l

/-! ### Behaviour of the orchestration loop -/

/-- The sheet entry recorded for a processed stem (source line 144). -/
def sheetEntry (s : Str) : Str × Str := (s, str "description " ++ s)

/-- An oracle on which every external invocation succeeds and `identify`
reports 22 × 22. -/
def allOk : Oracle := ⟨str "user", fun _ => 0, fun _ => 0, fun _ => (22, 22)⟩

/-- The three file writes a fully processed input leaves behind. -/
def perEvs (o : Oracle) (name f s : Str) : List Ev :=
  [.png (pngPath name s), .svgCopy (svgPath name s),
   .shapeFile (shapePath name s)
     (build_shape f (o.identifyDims (pngPath name s)).1
       (o.identifyDims (pngPath name s)).2)]

/-- The writes of a run in which every input on the list is processed to
completion (skipping stems in the seen-set). -/
def okEvs (o : Oracle) (name : Str) (seen : List Str) : List Str → List Ev
  | [] => []
  | f :: rest =>
    let s := stemOf f
    if s ∈ seen then okEvs o name seen rest
    else perEvs o name f s ++ okEvs o name (s :: seen) rest

/-- An oracle whose `convert` always succeeds and whose `identify` always
fails with status 1. -/
def idFail : Oracle := ⟨str "user", fun _ => 0, fun _ => 1, fun _ => (22, 22)⟩

/-- An oracle whose `convert` always fails with status 2. -/
def convFail2 : Oracle := ⟨str "user", fun _ => 2, fun _ => 0, fun _ => (22, 22)⟩

/-- Concrete input list with a duplicate stem, for the run witnesses. -/
def wInputs : List Str := [str "a.svg", str "b.svg", str "a.svg"]

/-- The sheet the run on `wInputs` produces. -/
def wSheet : Sheet :=
  ⟨str "t", str "user", str "t" ++ str " description",
   [(str "a", str "description " ++ str "a"),
    (str "b", str "description " ++ str "b")]⟩

/-- The writes the run on `wInputs` performs, in order. -/
def wEvs : List Ev :=
  [.png (pngPath (str "t") (str "a")),
   .svgCopy (svgPath (str "t") (str "a")),
   .shapeFile (shapePath (str "t") (str "a")) (build_shape (str "a.svg") 22 22),
   .png (pngPath (str "t") (str "b")),
   .svgCopy (svgPath (str "t") (str "b")),
   .shapeFile (shapePath (str "t") (str "b")) (build_shape (str "b.svg") 22 22),
   .sheetFile (sheetPath (str "t")) (build_sheet wSheet)]

/-- A per-character escaping is invertible by `unescapeAux` when every
character is rendered either as itself (and is not markup) or as a character
reference that `unescEnt` decodes back. -/
def EscOk (esc : Char → Str) : Prop :=
  ∀ c, (esc c = [c] ∧ c ≠ '<' ∧ c ≠ '&')
    ∨ ∃ tail, esc c = '&' :: tail ∧ 1 ≤ tail.length ∧
        ∀ X, unescEnt (tail ++ X) = some (c, X)

/-! ### Round trip: the serialized form of a shape document -/

/-- One serialized point element, with an explicit continuation. -/
def ptChunkT (x y r : Str) : Str :=
  str "<point x=\"" ++ (escapeAttr x ++ ('"' :: (str " y=\"" ++
    (escapeAttr y ++ ('"' :: (str " />" ++ r))))))

/-- The serialized points of a connection list, with a continuation. -/
def ptsJoinT : List (Int × Int) → Str → Str
  | [], r => r
  | xy :: l, r => ptChunkT (intStr xy.1) (intStr xy.2) (ptsJoinT l r)

/-- The full serialized shape document for a given stem and dimensions,
chunked the way the serializer produces it. -/
def shapeSerT (stem : Str) (w h : Int) : Str :=
  str "<shape xmlns:svg=\"http://www.w3.org/2000/svg\" xmlns:xlink=\"http://www.w3.org/1999/xlink\" xmlns=\"http://www.daa.com.au/~james/dia-shape-ns\"><name>" ++ (escapeText stem ++ ('<' :: (str "/name><icon>" ++ (escapeText (stem ++ str ".png") ++ ('<' :: (str "/icon><connections>" ++ ptsJoinT (shapePoints w h) (str "</connections><aspectratio type=\"" ++ (escapeAttr (str "fixed") ++ (('\"' :: (str " /><svg:svg><svg:image xlink:href=\"" ++ (escapeAttr (stem ++ str ".svg") ++ (('\"' :: (str " x=\"" ++ (escapeAttr (str "0") ++ (('\"' :: (str " y=\"" ++ (escapeAttr (str "0") ++ (('\"' :: (str " width=\"" ++ (escapeAttr (intStr w) ++ (('\"' :: (str " height=\"" ++ (escapeAttr (intStr h) ++ (('\"' :: (str " /></svg:svg></shape>")))))))))))))))))))))))))))))))

/-! ## Lemmas and claim theorems -/

/-! ## Claim theorems -/

/-- C1: for all integers width > 0 and height > 0, the `connections` block of
`build_shape` holds exactly the nine points
(0,0), (0,w/2), (0,w), (h/2,0), (h,0), (w/2,h), (w/2,h/2), (w,h/2), (w,h) in
that order, with `/` floor division; instantiated at 22×22 and 10×7 these are
the concrete lists the specification gives. -/
theorem c1_connection_points (p : Str) (w h : Int) (_hw : 0 < w) (_hh : 0 < h) :
    connPointsOf (build_shape p w h) =
      some ((shapePoints w h).map (fun q => (some (intStr q.1), some (intStr q.2))))
    ∧ shapePoints w h =
      [(0, 0), (0, w.fdiv 2), (0, w), (h.fdiv 2, 0), (h, 0),
       (w.fdiv 2, h), (w.fdiv 2, h.fdiv 2), (w, h.fdiv 2), (w, h)]
    ∧ shapePoints 22 22 =
      [(0,0), (0,11), (0,22), (11,0), (22,0), (11,22), (11,11), (22,11), (22,22)]
    ∧ shapePoints 10 7 =
      [(0,0), (0,5), (0,10), (3,0), (7,0), (5,7), (5,3), (10,3), (10,7)] :=
  ⟨rfl, rfl, by decide, by decide⟩

/-- Witness for C1 at width = height = 22. -/
theorem c1_connection_points_witness :
    (0 : Int) < 22 ∧ (0 : Int) < 22 ∧
    (connPointsOf (build_shape (str "a.svg") 22 22) =
      some ((shapePoints 22 22).map (fun q => (some (intStr q.1), some (intStr q.2))))
    ∧ shapePoints 22 22 =
      [(0, 0), (0, Int.fdiv 22 2), (0, 22), (Int.fdiv 22 2, 0), (22, 0),
       (Int.fdiv 22 2, 22), (Int.fdiv 22 2, Int.fdiv 22 2), (22, Int.fdiv 22 2), (22, 22)]
    ∧ shapePoints 22 22 =
      [(0,0), (0,11), (0,22), (11,0), (22,0), (11,22), (11,11), (22,11), (22,22)]
    ∧ shapePoints 10 7 =
      [(0,0), (0,5), (0,10), (3,0), (7,0), (5,7), (5,3), (10,3), (10,7)]) :=
  ⟨by decide, by decide, c1_connection_points (str "a.svg") 22 22 (by decide) (by decide)⟩

/-- C9: `build_shape` is total over all integers — for every stem and every
pair of integers, including zero and negative values, it produces a document
whose connections block has exactly 9 points. -/
theorem c9_build_shape_total (p : Str) (w h : Int) :
    connCountOf (build_shape p w h) = some 9 := rfl

/-- C8: `build_sheet` emits each of the `name`, `created_by` and `description`
children exactly when the corresponding Sheet string is non-empty; an empty
string yields no child for that field. -/
theorem c8_sheet_optional_fields (s : Sheet) :
    (build_sheet s).findChild (str "name") =
      (if s.name = [] then none else some (.mk (str "name") [] (some s.name) []))
    ∧ (build_sheet s).findChild (str "created_by") =
      (if s.author = [] then none
       else some (.mk (str "created_by") [] (some s.author) []))
    ∧ (build_sheet s).findChild (str "description") =
      (if s.description = [] then none
       else some (.mk (str "description") [] (some s.description) [])) := by
  obtain ⟨n, a, d, o⟩ := s
  refine ⟨?_, ?_, ?_⟩ <;>
    · by_cases hn : n = [] <;> by_cases ha : a = [] <;> by_cases hd : d = [] <;>
        simp +decide [build_sheet, Element.findChild, Element.children,
          Element.tag, List.find?, hn, ha, hd, str]

/-- C10: `build_sheet` always emits a `contents` child whose entries are the
object entries in order; with an empty objects mapping the `contents` child is
present and empty. -/
theorem c10_sheet_contents (s : Sheet) :
    (build_sheet s).findChild (str "contents") =
      some (.mk (str "contents") [] none (s.objects.map objectEl))
    ∧ (build_sheet ⟨s.name, s.author, s.description, []⟩).findChild (str "contents") =
      some (.mk (str "contents") [] none []) := by
  obtain ⟨n, a, d, o⟩ := s
  constructor <;>
    · by_cases hn : n = [] <;> by_cases ha : a = [] <;> by_cases hd : d = [] <;>
        simp +decide [build_sheet, Element.findChild, Element.children,
          Element.tag, List.find?, hn, ha, hd, str]

/-- C5: evaluation of the verbosity gate at every relevant flag count.  With
no flag nothing prints, as the claim says; but with a single `-v`
(verbosity = 1) the warning level 2 already satisfies `2 > 1 - 1`, so the
duplicate-input warning IS printed — contradicting the claim that warnings
need two or more occurrences (and the help text's promise that `-vv` prints
more than `-v`: the two are indistinguishable on the levels the program
uses). -/
theorem c5_verbosity_gate :
    printsAt none 1 = false ∧ printsAt none 2 = false
    ∧ printsAt (some 1) 1 = true ∧ printsAt (some 1) 2 = true
    ∧ printsAt (some 2) 1 = true ∧ printsAt (some 2) 2 = true := by
  decide

theorem mem_firstOccurAux (a : Str) :
    ∀ (l seen : List Str), a ∈ firstOccurAux seen l ↔ a ∈ l ∧ a ∉ seen
  | [], seen => by simp [firstOccurAux]
  | s :: rest, seen => by
    by_cases hs : s ∈ seen
    · rw [firstOccurAux, if_pos hs, mem_firstOccurAux a rest seen]
      by_cases has : a = s
      · subst has; simp [hs]
      · simp only [List.mem_cons]; tauto
    · rw [firstOccurAux, if_neg hs, List.mem_cons,
        mem_firstOccurAux a rest (s :: seen)]
      by_cases has : a = s
      · subst has; simp [hs]
      · simp only [List.mem_cons]; tauto

theorem mem_firstOccur (a : Str) (l : List Str) : a ∈ firstOccur l ↔ a ∈ l := by
  rw [firstOccur, mem_firstOccurAux]
  simp

theorem nodup_firstOccurAux : ∀ (l seen : List Str), (firstOccurAux seen l).Nodup
  | [], _ => by simp [firstOccurAux]
  | s :: rest, seen => by
    by_cases hs : s ∈ seen
    · rw [firstOccurAux, if_pos hs]
      exact nodup_firstOccurAux rest seen
    · rw [firstOccurAux, if_neg hs]
      refine List.nodup_cons.2 ⟨fun hmem => ?_, nodup_firstOccurAux rest (s :: seen)⟩
      exact ((mem_firstOccurAux s rest (s :: seen)).1 hmem).2 (List.mem_cons_self s seen)

theorem nodup_firstOccur (l : List Str) : (firstOccur l).Nodup :=
  nodup_firstOccurAux l []

theorem dictInsert_of_not_mem (d : List (Str × Str)) (k v : Str)
    (h : k ∉ d.map Prod.fst) : dictInsert d k v = d ++ [(k, v)] := by
  rw [dictInsert, if_neg h]

/-- On success, the loop appends exactly one sheet entry per first-occurrence
stem, in order. -/
theorem runLoop_ok_objs (o : Oracle) (name : Str) :
    ∀ (inputs seen : List Str) (objs : List (Str × Str)) (evs evs' : List Ev)
      (objs' : List (Str × Str)),
      (∀ k, k ∈ objs.map Prod.fst → k ∈ seen) →
      runLoop o name seen objs evs inputs = .ok (evs', objs') →
      objs' = objs ++ (firstOccurAux seen (inputs.map stemOf)).map sheetEntry
  | [], seen, objs, evs, evs', objs', _, heq => by
    simp only [runLoop, Except.ok.injEq, Prod.mk.injEq] at heq
    simp [List.map_nil, firstOccurAux, heq.2]
  | f :: rest, seen, objs, evs, evs', objs', hinv, heq => by
    rw [runLoop] at heq
    by_cases hs : stemOf f ∈ seen
    · rw [if_pos hs] at heq
      have ih := runLoop_ok_objs o name rest seen objs evs evs' objs' hinv heq
      rw [ih, List.map_cons, firstOccurAux, if_pos hs]
    · rw [if_neg hs] at heq
      by_cases hc : o.convertRC f ≠ 0
      · rw [if_pos hc] at heq; exact absurd heq (by simp)
      · rw [if_neg hc] at heq
        by_cases hi : o.identifyRC (pngPath name (stemOf f)) ≠ 0
        · rw [if_pos hi] at heq; exact absurd heq (by simp)
        · rw [if_neg hi] at heq
          have hkey : stemOf f ∉ objs.map Prod.fst := fun hk => hs (hinv _ hk)
          rw [dictInsert_of_not_mem _ _ _ hkey] at heq
          have hinv' : ∀ k, k ∈ (objs ++ [(stemOf f, str "description " ++ stemOf f)]).map Prod.fst →
              k ∈ stemOf f :: seen := by
            intro k hk
            rcases List.mem_map.1 hk with ⟨kv, hkv, hfst⟩
            rcases List.mem_append.1 hkv with hkv | hkv
            · exact List.mem_cons_of_mem _ (hinv k (hfst ▸ List.mem_map_of_mem Prod.fst hkv))
            · simp only [List.mem_singleton] at hkv
              subst hkv
              simp [← hfst]
          have ih := runLoop_ok_objs o name rest (stemOf f :: seen)
            (objs ++ [(stemOf f, str "description " ++ stemOf f)]) _ evs' objs' hinv' heq
          rw [ih, List.map_cons, firstOccurAux, if_neg hs]
          simp [sheetEntry, List.append_assoc]

/-- Processing an input whose stem was already seen (either in the ambient
seen-set or earlier in the list) is a no-op: the run is the same as if the
duplicate were absent. -/
theorem runLoop_skip_of_mem (o : Oracle) (name x : Str) :
    ∀ (pre post seen : List Str) (objs : List (Str × Str)) (evs : List Ev),
      (stemOf x ∈ seen ∨ stemOf x ∈ pre.map stemOf) →
      runLoop o name seen objs evs (pre ++ x :: post) =
        runLoop o name seen objs evs (pre ++ post)
  | [], post, seen, objs, evs, hmem => by
    rcases hmem with h | h
    · rw [List.nil_append, List.nil_append, runLoop, if_pos h]
    · simp at h
  | f :: pre, post, seen, objs, evs, hmem => by
    rw [List.cons_append, List.cons_append, runLoop]
    conv_rhs => rw [runLoop]
    have hmem' : stemOf x = stemOf f ∨ stemOf x ∈ seen ∨ stemOf x ∈ pre.map stemOf := by
      rcases hmem with h | h
      · exact Or.inr (Or.inl h)
      · rcases List.mem_cons.1 (by simpa only [List.map_cons] using h) with h | h
        · exact Or.inl h
        · exact Or.inr (Or.inr h)
    by_cases hs : stemOf f ∈ seen
    · rw [if_pos hs, if_pos hs]
      refine runLoop_skip_of_mem o name x pre post seen objs evs ?_
      rcases hmem' with h | h | h
      · exact Or.inl (h ▸ hs)
      · exact Or.inl h
      · exact Or.inr h
    · rw [if_neg hs, if_neg hs]
      by_cases hc : o.convertRC f ≠ 0
      · rw [if_pos hc, if_pos hc]
      · rw [if_neg hc, if_neg hc]
        by_cases hi : o.identifyRC (pngPath name (stemOf f)) ≠ 0
        · rw [if_pos hi, if_pos hi]
        · rw [if_neg hi, if_neg hi]
          refine runLoop_skip_of_mem o name x pre post (stemOf f :: seen) _ _ ?_
          rcases hmem' with h | h | h
          · exact Or.inl (h ▸ List.mem_cons_self _ _)
          · exact Or.inl (List.mem_cons_of_mem _ h)
          · exact Or.inr h

/-- The map over `sheetEntry` projects back to the stems. -/
theorem map_fst_sheetEntry : ∀ l : List Str, (l.map sheetEntry).map Prod.fst = l
  | [] => rfl
  | s :: l => by rw [List.map_cons, List.map_cons, map_fst_sheetEntry l]; rfl

/-- C2: on a successful run the sequence of processed stems (the keys of the
sheet's objects mapping, in insertion order) equals the distinct stems of the
input list in first-occurrence order, each exactly once; and an input whose
stem already occurred earlier is skipped without altering the run at all. -/
theorem c2_dedup_stems (o : Oracle) (name : Str) (inputs : List Str)
    (evs : List Ev) (sheet : Sheet)
    (h : runMain o name inputs = .ok (evs, sheet)) :
    sheet.objects.map Prod.fst = firstOccur (inputs.map stemOf)
    ∧ (firstOccur (inputs.map stemOf)).Nodup
    ∧ (∀ a, a ∈ firstOccur (inputs.map stemOf) ↔ a ∈ inputs.map stemOf)
    ∧ (∀ pre x post, stemOf x ∈ pre.map stemOf →
        runMain o name (pre ++ x :: post) = runMain o name (pre ++ post)) := by
  refine ⟨?_, nodup_firstOccur _, fun a => mem_firstOccur a _, ?_⟩
  · rw [runMain] at h
    rcases hr : runLoop o name [] [] [] inputs with e | ⟨evs0, objs⟩
    · rw [hr] at h; cases h
    · rw [hr] at h
      have hobjs := runLoop_ok_objs o name inputs [] [] [] evs0 objs
        (by intro k hk; simp at hk) hr
      cases h
      simpa [firstOccur] using congrArg (List.map Prod.fst) (hobjs.trans (by simp)) |>.trans
        (map_fst_sheetEntry _)
  · intro pre x post hmem
    rw [runMain, runMain, runLoop_skip_of_mem o name x pre post [] [] [] (Or.inr hmem)]

/-- The `contents` child of a generated sheet document. -/
theorem findChild_contents (s : Sheet) :
    (build_sheet s).findChild (str "contents") =
      some (.mk (str "contents") [] none (s.objects.map objectEl)) := by
  obtain ⟨n, a, d, o⟩ := s
  by_cases hn : n = [] <;> by_cases ha : a = [] <;> by_cases hd : d = [] <;>
    simp +decide [build_sheet, Element.findChild, Element.children,
      Element.tag, List.find?, hn, ha, hd, str]

/-- Extracting name attribute and description text from generated object
entries recovers the mapping. -/
theorem objectEl_entries : ∀ o : List (Str × Str),
    (o.map objectEl).map
        (fun ob => (ob.attrGet (str "name"),
          (ob.findChild (str "description")).bind Element.txt)) =
      o.map (fun kv => (some kv.1, some kv.2))
  | [] => rfl
  | kv :: o => by
    simp only [List.map_cons, objectEl_entries o]
    rfl

theorem objectEntriesOf_build_sheet (s : Sheet) :
    objectEntriesOf (build_sheet s) =
      some (s.objects.map (fun kv => (some kv.1, some kv.2))) := by
  rw [objectEntriesOf, findChild_contents]
  exact congrArg some (objectEl_entries s.objects)

/-- The composed entry view of the recorded sheet entries. -/
theorem map_entry_view : ∀ l : List Str,
    (l.map sheetEntry).map (fun kv => ((some kv.1 : Option Str), (some kv.2 : Option Str))) =
      l.map (fun s => (some s, some (str "description " ++ s)))
  | [] => rfl
  | s :: l => by
    simp only [List.map_cons, map_entry_view l]
    rfl

/-- C4: on a successful run, the object entries of the emitted sheet document
are exactly the processed stems in processing order, each carrying its stem as
the `name` attribute and `description <stem>` as its description text; and the
sheet document is written as the final output. -/
theorem c4_sheet_entries (o : Oracle) (name : Str) (inputs : List Str)
    (evs : List Ev) (sheet : Sheet)
    (h : runMain o name inputs = .ok (evs, sheet)) :
    objectEntriesOf (build_sheet sheet) =
      some ((firstOccur (inputs.map stemOf)).map
        (fun s => (some s, some (str "description " ++ s))))
    ∧ sheet.objects = (firstOccur (inputs.map stemOf)).map sheetEntry
    ∧ Ev.sheetFile (sheetPath name) (build_sheet sheet) ∈ evs := by
  rw [runMain] at h
  rcases hr : runLoop o name [] [] [] inputs with e | ⟨evs0, objs⟩
  · rw [hr] at h; cases h
  · rw [hr] at h
    have hobjs := runLoop_ok_objs o name inputs [] [] [] evs0 objs
      (by intro k hk; simp at hk) hr
    cases h
    refine ⟨?_, by simpa [firstOccur] using hobjs, by simp⟩
    rw [objectEntriesOf_build_sheet]
    refine congrArg some ?_
    show objs.map _ = _
    rw [hobjs]
    simpa [firstOccur] using map_entry_view (firstOccurAux [] (inputs.map stemOf))

theorem sheet_not_mem_perEvs (o : Oracle) (name f s p : Str) (d : Element) :
    Ev.sheetFile p d ∉ perEvs o name f s := by
  intro h
  simp [perEvs] at h

theorem sheet_not_mem_okEvs (o : Oracle) (name : Str) :
    ∀ (l seen : List Str) (p : Str) (d : Element),
      Ev.sheetFile p d ∉ okEvs o name seen l
  | [], _, _, _ => List.not_mem_nil _
  | f :: rest, seen, p, d => by
    rw [okEvs]
    by_cases hs : stemOf f ∈ seen
    · rw [if_pos hs]; exact sheet_not_mem_okEvs o name rest seen p d
    · rw [if_neg hs]
      intro hmem
      rcases List.mem_append.1 hmem with h | h
      · exact sheet_not_mem_perEvs o name f (stemOf f) p d h
      · exact sheet_not_mem_okEvs o name rest (stemOf f :: seen) p d h

/-- On failure, the writes performed are exactly those of the fully processed
prefix of unique inputs, followed at most by the thumbnail that `convert`
wrote before `identify` failed. -/
theorem runLoop_err_evs (o : Oracle) (name : Str) :
    ∀ (inputs seen : List Str) (objs : List (Str × Str)) (evs0 evs' : List Ev)
      (err : RunErr),
      runLoop o name seen objs evs0 inputs = .error (evs', err) →
      ∃ k tl, evs' = evs0 ++ okEvs o name seen (inputs.take k) ++ tl
        ∧ (tl = [] ∨ ∃ s, tl = [Ev.png (pngPath name s)])
  | [], seen, objs, evs0, evs', err, heq => by
    simp [runLoop] at heq
  | f :: rest, seen, objs, evs0, evs', err, heq => by
    rw [runLoop] at heq
    by_cases hs : stemOf f ∈ seen
    · rw [if_pos hs] at heq
      obtain ⟨k, tl, hevs, htl⟩ :=
        runLoop_err_evs o name rest seen objs evs0 evs' err heq
      exact ⟨k + 1, tl, by rw [List.take_succ_cons, okEvs, if_pos hs]; exact hevs, htl⟩
    · rw [if_neg hs] at heq
      by_cases hc : o.convertRC f ≠ 0
      · rw [if_pos hc] at heq
        refine ⟨0, [], ?_, Or.inl rfl⟩
        simp only [Except.error.injEq, Prod.mk.injEq] at heq
        simp [← heq.1, okEvs, List.take_zero]
      · rw [if_neg hc] at heq
        by_cases hi : o.identifyRC (pngPath name (stemOf f)) ≠ 0
        · rw [if_pos hi] at heq
          refine ⟨0, [Ev.png (pngPath name (stemOf f))], ?_,
            Or.inr ⟨stemOf f, rfl⟩⟩
          simp only [Except.error.injEq, Prod.mk.injEq] at heq
          simp [← heq.1, okEvs, List.take_zero]
        · rw [if_neg hi] at heq
          obtain ⟨k, tl, hevs, htl⟩ :=
            runLoop_err_evs o name rest (stemOf f :: seen)
              (dictInsert objs (stemOf f) (str "description " ++ stemOf f))
              _ evs' err heq
          refine ⟨k + 1, tl, ?_, htl⟩
          rw [List.take_succ_cons, okEvs, if_neg hs, hevs]
          simp [perEvs, List.append_assoc]

/-- A raised `CalledProcessError` always carries a non-zero exit status. -/
theorem runLoop_err_rc (o : Oracle) (name : Str) :
    ∀ (inputs seen : List Str) (objs : List (Str × Str)) (evs0 evs' : List Ev)
      (cmd : List Str) (rc : Int),
      runLoop o name seen objs evs0 inputs = .error (evs', .calledProcess cmd rc) →
      rc ≠ 0
  | [], seen, objs, evs0, evs', cmd, rc, heq => by
    simp [runLoop] at heq
  | f :: rest, seen, objs, evs0, evs', cmd, rc, heq => by
    rw [runLoop] at heq
    by_cases hs : stemOf f ∈ seen
    · rw [if_pos hs] at heq
      exact runLoop_err_rc o name rest seen objs evs0 evs' cmd rc heq
    · rw [if_neg hs] at heq
      by_cases hc : o.convertRC f ≠ 0
      · rw [if_pos hc] at heq
        simp only [Except.error.injEq, Prod.mk.injEq,
          RunErr.calledProcess.injEq] at heq
        exact heq.2.2 ▸ hc
      · rw [if_neg hc] at heq
        by_cases hi : o.identifyRC (pngPath name (stemOf f)) ≠ 0
        · rw [if_pos hi] at heq
          simp only [Except.error.injEq, Prod.mk.injEq,
            RunErr.calledProcess.injEq] at heq
          exact heq.2.2 ▸ hi
        · rw [if_neg hi] at heq
          exact runLoop_err_rc o name rest (stemOf f :: seen) _ _ evs' cmd rc heq

/-- C6 counterexample: with `convert` succeeding and `identify` failing on the
very first (hence N-th unique, N = 1) input, the aborted run has already
written the thumbnail for that failing input — an output for input N, which
the claim says must not exist. -/
theorem c6_counterexample :
    runMain idFail (str "demo") [str "a.svg"] =
      .error ([Ev.png (pngPath (str "demo") (str "a"))],
        .calledProcess (identifyCmd (pngPath (str "demo") (str "a"))) 1)
    ∧ [Ev.png (pngPath (str "demo") (str "a"))] ≠ ([] : List Ev) :=
  ⟨rfl, fun hcontra => List.noConfusion hcontra⟩

/-- C6 (amended): if an external command fails, the run aborts at once: the
writes on disk are exactly those of the fully processed prefix of unique
inputs — untouched by the abort — followed at most by the failing input's
thumbnail (present exactly when `convert` succeeded and `identify` failed),
with nothing for any later input, and the sheet document is never written. -/
theorem c6_no_rollback (o : Oracle) (name : Str) (inputs : List Str)
    (evs : List Ev) (err : RunErr)
    (h : runMain o name inputs = .error (evs, err)) :
    (∃ k tl, evs = okEvs o name [] (inputs.take k) ++ tl
       ∧ (tl = [] ∨ ∃ s, tl = [Ev.png (pngPath name s)]))
    ∧ (∀ p d, Ev.sheetFile p d ∉ evs) := by
  rw [runMain] at h
  rcases hr : runLoop o name [] [] [] inputs with ⟨evs0, e⟩ | ⟨evs0, objs⟩
  · rw [hr] at h
    simp only [Except.error.injEq, Prod.mk.injEq] at h
    obtain ⟨rfl, rfl⟩ := h
    obtain ⟨k, tl, hevs, htl⟩ :=
      runLoop_err_evs o name inputs [] [] [] evs0 e hr
    rw [List.nil_append] at hevs
    refine ⟨⟨k, tl, hevs, htl⟩, ?_⟩
    intro p d hmem
    rw [hevs] at hmem
    rcases List.mem_append.1 hmem with hm | hm
    · exact sheet_not_mem_okEvs o name (List.take k inputs) [] p d hm
    · rcases htl with rfl | ⟨s, rfl⟩
      · exact List.not_mem_nil _ hm
      · simp at hm
  · rw [hr] at h; cases h

/-- Witness for C6 at a concrete failing run (`convert` fails on the sole
input). -/
theorem c6_no_rollback_witness :
    (∃ k tl, ([] : List Ev) = okEvs convFail2 (str "demo") [] (List.take k [str "a.svg"]) ++ tl
       ∧ (tl = [] ∨ ∃ s, tl = [Ev.png (pngPath (str "demo") s)]))
    ∧ (∀ p d, Ev.sheetFile p d ∉ ([] : List Ev)) :=
  c6_no_rollback convFail2 (str "demo") [str "a.svg"] []
    (.calledProcess (convertCmd (str "a.svg") (pngPath (str "demo") (str "a"))) 2) rfl

/-- C7 counterexample: when `convert` exits with status 2, the interpreter
terminates the run through the unhandled `CalledProcessError` with exit
status 1 — non-zero, but not the failing command's own status 2. -/
theorem c7_counterexample :
    runMain convFail2 (str "demo") [str "a.svg"] =
      .error ([], .calledProcess
        (convertCmd (str "a.svg") (pngPath (str "demo") (str "a"))) 2)
    ∧ exitCode (runMain convFail2 (str "demo") [str "a.svg"]) = 1
    ∧ (1 : Int) ≠ 2 :=
  ⟨rfl, rfl, by decide⟩

/-- C7 (amended): the process exits with status 0 exactly when every input is
processed to completion; a failing external command aborts the run with the
interpreter's uncaught-exception status 1, which is non-zero but independent
of the failing command's own (necessarily non-zero) exit status. -/
theorem c7_exit_status (o : Oracle) (name : Str) (inputs : List Str) :
    (exitCode (runMain o name inputs) = 0 ↔
      ∃ r, runMain o name inputs = .ok r)
    ∧ (∀ evs cmd rc, runMain o name inputs = .error (evs, .calledProcess cmd rc) →
        exitCode (runMain o name inputs) = 1 ∧ rc ≠ 0) := by
  constructor
  · cases hr : runMain o name inputs with
    | ok r => simp [exitCode, hr]
    | error e => simp [exitCode, hr]
  · intro evs cmd rc h
    refine ⟨by rw [h]; rfl, ?_⟩
    rw [runMain] at h
    rcases hr : runLoop o name [] [] [] inputs with ⟨evs0, e⟩ | ⟨evs0, objs⟩
    · rw [hr] at h
      simp only [Except.error.injEq, Prod.mk.injEq] at h
      obtain ⟨rfl, rfl⟩ := h
      exact runLoop_err_rc o name inputs [] [] [] evs0 cmd rc hr
    · rw [hr] at h; cases h

/-- Witness for C7's inner implication at a concrete failing run. -/
theorem c7_exit_status_witness :
    (exitCode (runMain convFail2 (str "t7") [str "a.svg"]) = 0 ↔
      ∃ r, runMain convFail2 (str "t7") [str "a.svg"] = .ok r)
    ∧ (∀ evs cmd rc,
        runMain convFail2 (str "t7") [str "a.svg"] = .error (evs, .calledProcess cmd rc) →
        exitCode (runMain convFail2 (str "t7") [str "a.svg"]) = 1 ∧ rc ≠ 0) :=
  c7_exit_status convFail2 (str "t7") [str "a.svg"]

/-- Witness for C2 at a concrete run with a duplicate third input. -/
theorem c2_dedup_stems_witness :
    wSheet.objects.map Prod.fst = firstOccur (wInputs.map stemOf)
    ∧ (firstOccur (wInputs.map stemOf)).Nodup
    ∧ (∀ a, a ∈ firstOccur (wInputs.map stemOf) ↔ a ∈ wInputs.map stemOf)
    ∧ (∀ pre x post, stemOf x ∈ pre.map stemOf →
        runMain allOk (str "t") (pre ++ x :: post) =
          runMain allOk (str "t") (pre ++ post)) :=
  c2_dedup_stems allOk (str "t") wInputs wEvs wSheet rfl

/-- Witness for C4 at a concrete run with a duplicate third input. -/
theorem c4_sheet_entries_witness :
    objectEntriesOf (build_sheet wSheet) =
      some ((firstOccur (wInputs.map stemOf)).map
        (fun s => (some s, some (str "description " ++ s))))
    ∧ wSheet.objects = (firstOccur (wInputs.map stemOf)).map sheetEntry
    ∧ Ev.sheetFile (sheetPath (str "t")) (build_sheet wSheet) ∈ wEvs :=
  c4_sheet_entries allOk (str "t") wInputs wEvs wSheet rfl

/-! ### Round trip: parser lemmas -/

theorem dropLit_append : ∀ l r : Str, dropLit l (l ++ r) = some r
  | [], _ => rfl
  | c :: l, r => by
    rw [List.cons_append, dropLit, if_pos rfl]
    exact dropLit_append l r

theorem dropLit_self (l : Str) : dropLit l l = some [] := by
  have := dropLit_append l []
  rwa [List.append_nil] at this

theorem takeUntil_append (c : Char) :
    ∀ (l r : Str), c ∉ l → takeUntil c (l ++ c :: r) = some (l, r)
  | [], r, _ => by rw [List.nil_append, takeUntil, if_pos rfl]
  | d :: l, r, h => by
    have hd : d ≠ c := fun e => h (e ▸ List.mem_cons_self d l)
    rw [List.cons_append, takeUntil, if_neg hd,
      takeUntil_append c l r (fun hm => h (List.mem_cons_of_mem _ hm))]
    rfl

theorem not_lt_escChar (c : Char) : '<' ∉ escChar c := by
  unfold escChar
  split
  · decide
  · split
    · decide
    · split
      · decide
      · next h1 h2 h3 =>
        intro hm
        exact h2 (List.mem_singleton.1 hm).symm

theorem not_mem_escWord (x : Char) (esc : Char → Str) (hc : ∀ c, x ∉ esc c) :
    ∀ t : Str, x ∉ escWord esc t
  | [] => List.not_mem_nil _
  | c :: t => by
    rw [escWord]
    intro hm
    rcases List.mem_append.1 hm with h | h
    · exact hc c h
    · exact not_mem_escWord x esc hc t h

theorem escapeText_no_lt (t : Str) : '<' ∉ escapeText t :=
  not_mem_escWord '<' escChar not_lt_escChar t

theorem not_quot_escAChar (c : Char) : '"' ∉ escAChar c := by
  unfold escAChar
  split
  · decide
  · split
    · decide
    · split
      · decide
      · split
        · decide
        · split
          · decide
          · split
            · decide
            · split
              · decide
              · next h1 h2 h3 h4 h5 h6 h7 =>
                intro hm
                exact h4 (List.mem_singleton.1 hm).symm

theorem escapeAttr_no_quot (v : Str) : '"' ∉ escapeAttr v :=
  not_mem_escWord '"' escAChar not_quot_escAChar v

theorem unescapeAux_nil : ∀ fuel : Nat, unescapeAux fuel [] = some []
  | 0 => rfl
  | _ + 1 => rfl

theorem unescapeAux_escWord (esc : Char → Str) (hesc : EscOk esc) :
    ∀ (t : Str) (fuel : Nat),
      (escWord esc t).length ≤ fuel → unescapeAux fuel (escWord esc t) = some t
  | [], fuel, _ => unescapeAux_nil fuel
  | c :: t, fuel, hle => by
    rw [escWord] at hle ⊢
    rcases hesc c with ⟨hc, h1, h2⟩ | ⟨tail, hc, htl, hent⟩
    · rw [hc] at hle ⊢
      rw [List.singleton_append] at hle ⊢
      rcases fuel with _ | f
      · exact absurd hle (by simp)
      · rw [unescapeAux, if_neg h1, if_neg h2,
          unescapeAux_escWord esc hesc t f (by
            rw [List.length_cons] at hle
            omega)]
        rfl
    · rw [hc] at hle ⊢
      rw [List.cons_append] at hle ⊢
      rcases fuel with _ | f
      · exact absurd hle (by simp)
      · rw [unescapeAux, if_neg (by decide), if_pos rfl, hent (escWord esc t)]
        show (unescapeAux f (escWord esc t)).map _ = _
        rw [unescapeAux_escWord esc hesc t f (by
          rw [List.length_cons, List.length_append] at hle
          omega)]
        rfl

theorem escOk_escChar : EscOk escChar := by
  intro c
  by_cases h1 : c = '&'
  · subst h1
    exact Or.inr ⟨str "amp;", rfl, by decide, fun X => rfl⟩
  · by_cases h2 : c = '<'
    · subst h2
      exact Or.inr ⟨str "lt;", by rw [escChar]; rfl, by decide, fun X => rfl⟩
    · by_cases h3 : c = '>'
      · subst h3
        exact Or.inr ⟨str "gt;", by rw [escChar]; rfl, by decide, fun X => rfl⟩
      · exact Or.inl ⟨by rw [escChar, if_neg h1, if_neg h2, if_neg h3], h2, h1⟩

theorem escOk_escAChar : EscOk escAChar := by
  intro c
  by_cases h1 : c = '&'
  · subst h1
    exact Or.inr ⟨str "amp;", rfl, by decide, fun X => rfl⟩
  · by_cases h2 : c = '<'
    · subst h2
      exact Or.inr ⟨str "lt;", by rw [escAChar]; rfl, by decide, fun X => rfl⟩
    · by_cases h3 : c = '>'
      · subst h3
        exact Or.inr ⟨str "gt;", by rw [escAChar]; rfl, by decide, fun X => rfl⟩
      · by_cases h4 : c = '"'
        · subst h4
          exact Or.inr ⟨str "quot;", by rw [escAChar]; rfl, by decide, fun X => rfl⟩
        · by_cases h5 : c = '\r'
          · subst h5
            exact Or.inr ⟨str "#13;", by rw [escAChar]; rfl, by decide, fun X => rfl⟩
          · by_cases h6 : c = '\n'
            · subst h6
              exact Or.inr ⟨str "#10;", by rw [escAChar]; rfl, by decide, fun X => rfl⟩
            · by_cases h7 : c = '\t'
              · subst h7
                exact Or.inr ⟨str "#09;", by rw [escAChar]; rfl, by decide, fun X => rfl⟩
              · exact Or.inl ⟨by
                  rw [escAChar, if_neg h1, if_neg h2, if_neg h3, if_neg h4,
                    if_neg h5, if_neg h6, if_neg h7], h2, h1⟩

theorem unescape_escapeText (t : Str) : unescape (escapeText t) = some t :=
  unescapeAux_escWord escChar escOk_escChar t _ (le_refl _)

theorem unescape_escapeAttr (v : Str) : unescape (escapeAttr v) = some v :=
  unescapeAux_escWord escAChar escOk_escAChar v _ (le_refl _)

theorem pText_spec (t r : Str) :
    pText (escapeText t ++ ('<' :: r)) = some (t, r) := by
  rw [pText, takeUntil_append '<' (escapeText t) r (escapeText_no_lt t)]
  show (unescape (escapeText t)).bind _ = _
  rw [unescape_escapeText t]
  rfl

theorem pAttrVal_spec (v r : Str) :
    pAttrVal (escapeAttr v ++ ('"' :: r)) = some (v, r) := by
  rw [pAttrVal, takeUntil_append '"' (escapeAttr v) r (escapeAttr_no_quot v)]
  show (unescape (escapeAttr v)).bind _ = _
  rw [unescape_escapeAttr v]
  rfl

/-- Monadic bind on a present optional value, as produced by `do`. -/
theorem obind_some {α β : Type} (a : α) (f : α → Option β) :
    (Bind.bind (some a) f : Option β) = f a := rfl

theorem parsePoint_spec (x y r : Str) :
    parsePoint (ptChunkT x y r) = some ((x, y), r) := by
  simp only [ptChunkT, parsePoint, dropLit_append, obind_some, pAttrVal_spec]

theorem parsePoints_spec : ∀ (l : List (Int × Int)) (r : Str),
    parsePoints l.length (ptsJoinT l r) =
      some (l.map (fun xy => (intStr xy.1, intStr xy.2)), r)
  | [], r => rfl
  | xy :: l, r => by
    rw [List.length_cons, ptsJoinT]
    simp only [parsePoints, parsePoint_spec, obind_some, parsePoints_spec l r,
      List.map_cons]

/-- `parsePoints 9` consumes exactly the nine serialized connection points. -/
theorem parsePoints_nine (w h : Int) (r : Str) :
    parsePoints 9 (ptsJoinT (shapePoints w h) r) =
      some ((shapePoints w h).map (fun xy => (intStr xy.1, intStr xy.2)), r) :=
  parsePoints_spec (shapePoints w h) r

/-- A serialized point element followed by anything is the point chunk. -/
theorem serializePoint_chunk (xy : Int × Int) (r : Str) :
    serializeElement (pointEl xy) ++ r = ptChunkT (intStr xy.1) (intStr xy.2) r := by
  rw [pointEl, serializeElement, if_pos (by decide)]
  simp only [serializeAttrs, ptChunkT, List.append_assoc, List.cons_append]
  rfl

/-- The serialized children of the `connections` element, with an arbitrary
continuation, form the serialized point chunks. -/
theorem serializeChildren_points : ∀ (l : List (Int × Int)) (tail : Str),
    serializeChildren (l.map pointEl) ++ tail = ptsJoinT l tail
  | [], tail => by
    rw [List.map_nil, serializeChildren, List.nil_append, ptsJoinT]
  | xy :: l, tail => by
    rw [List.map_cons, serializeChildren, ptsJoinT, List.append_assoc,
      serializeChildren_points l tail, serializePoint_chunk]

set_option maxRecDepth 4000

/-- The serializer output on a shape document, re-chunked for the parser.
The stem must be non-empty: an empty stem makes the `name` element
self-closing instead. -/
theorem serialize_build_shape (p : Str) (w h : Int) (hstem : stemOf p ≠ []) :
    serializeElement (build_shape p w h) = shapeSerT (stemOf p) w h := by
  rcases hst : stemOf p with _ | ⟨c, cs⟩
  · exact absurd hst hstem
  · simp only [build_shape, hst]
    simp [serializeElement, serializeChildren, serializeAttrs, pointEl,
      shapePoints, shapeSerT, ptsJoinT, ptChunkT, escapeText, escapeAttr,
      escWord, List.append_assoc]
    rfl

/-- C3 counterexample: for the empty stem the `name` element carries empty
text, so ElementTree serializes it self-closing (`<name />`) and the name can
no longer be recovered from the document text: the round trip fails. -/
theorem c3_counterexample :
    stemOf (str "") = []
    ∧ parseShape (serializeElement (build_shape (str "") 22 22)) = none :=
  ⟨rfl, rfl⟩

/-- C3 (amended): for every input path with a non-empty stem and all
introspected integer dimensions, parsing the serialized shape document
recovers exactly the stem as name, `<stem>.png` as icon, all 9 connection
points, the aspect-ratio type `fixed`, and the embedded image reference at
(0,0) with the given width/height and `<stem>.svg` as linked source. -/
theorem c3_round_trip (p : Str) (w h : Int) (hstem : stemOf p ≠ []) :
    parseShape (serializeElement (build_shape p w h)) =
      some ⟨stemOf p, stemOf p ++ str ".png",
            (shapePoints w h).map (fun xy => (intStr xy.1, intStr xy.2)),
            str "fixed", stemOf p ++ str ".svg",
            str "0", str "0", intStr w, intStr h⟩ := by
  rw [serialize_build_shape p w h hstem, shapeSerT]
  simp only [parseShape, dropLit_append, pText_spec, pAttrVal_spec,
    parsePoints_nine, dropLit_self]
  exact if_pos trivial

/-- Witness for C3 at `a.svg` with the nominal 22 × 22 thumbnail. -/
theorem c3_round_trip_witness :
    parseShape (serializeElement (build_shape (str "a.svg") 22 22)) =
      some ⟨stemOf (str "a.svg"), stemOf (str "a.svg") ++ str ".png",
            (shapePoints 22 22).map (fun xy => (intStr xy.1, intStr xy.2)),
            str "fixed", stemOf (str "a.svg") ++ str ".svg",
            str "0", str "0", intStr 22, intStr 22⟩ :=
  c3_round_trip (str "a.svg") 22 22 (by decide)

end SvgToDia
